import Mathlib

/-
Verification of the epoch-based train/validation loop of
src/.virtual_documents/overfit_small_dataset.ipynb (function `train_model`,
lines 48-215), as a shallow embedding.

Modelling conventions:
* a tensor of per-class scores (one row of a model output or a one-hot label
  vector) is a `List ℚ`;
* the neural network, the loss criterion and the optimizer are opaque
  collaborators, carried by a `TrainEnv` record: `forward` is the model
  applied to one video (it may depend on the train/eval mode set by
  `model.train()` / `model.eval()`), `criterion` is the loss on a batch of
  outputs and target class indices, and `step` is the combined effect of
  `loss.backward(); optimizer.step()` (any parameter/buffer mutation of the
  train phase) on the parameters and the optimizer state;
* `torch.max(t, 1)[1]` (the index of the first maximum of each row) is
  `argmax1`;
* a dataloader is the list of the batches it yields, each batch a list of
  samples; `datasetLen` is `len(dataloaders[phase].dataset)`;
* the purely-printing statements (`tqdm` progress bar, `print`,
  `train_n_total`) are not modelled; `init_session_history`, `save_weights`
  and `write_history` are modelled by the trace of `Event`s the loop emits.
-/

abbrev Tensor : Type := List ℚ

/-- One dataset sample as yielded by the dataloader: a video together with its
one-hot action label vector (`sample["video"]`, `sample["action"]`). -/
structure Sample (V : Type) where
  video : V
  action : Tensor

/-- The phase enumeration of the loop: `for phase in ['train', 'val']`. -/
inductive Phase : Type where
  | train : Phase
  | val : Phase
deriving DecidableEq

/-- Index of the first maximum of a list of scores, scanning from position
`i`, with current best index `best` of value `bestVal`. -/
def argmaxFrom (best : ℕ) (bestVal : ℚ) (i : ℕ) : List ℚ → ℕ
  | [] => best
  | x :: xs => if bestVal < x then argmaxFrom i x (i + 1) xs
               else argmaxFrom best bestVal (i + 1) xs

/-- `torch.max(xs, dim)[1]` on one row: the index of the first maximal
entry (0 on the empty list). -/
def argmax1 : Tensor → ℕ
  | [] => 0
  | x :: xs => argmaxFrom 0 x 1 xs

/-- `torch.sum(preds == gts)`: the number of positions where the predicted
class index equals the ground-truth class index. -/
def countCorrect (preds gts : List ℕ) : ℕ :=
  (preds.zip gts).countP (fun pg => pg.1 == pg.2)

/-- The quadruple returned by `get_acc_f1_precision_recall`. -/
structure Metrics where
  accuracy : ℚ
  f1 : ℚ
  precision : ℚ
  recallScore : ℚ

/-- The collaborators of `train_model`, over parameter state `P`, optimizer
state `O` and video type `V`.  `forward p ph v` is the model with parameters
`p`, in the mode set for phase `ph`, applied to video `v`; `criterion outs
gts` is the loss of a batch; `step p o b` is the effect of
`loss.backward(); optimizer.step()` for batch `b`; `batches ph` is the list
of batches `dataloaders[ph]` yields; `datasetLen ph` is
`len(dataloaders[ph].dataset)`; `metricsFn` is `get_acc_f1_precision_recall`. -/
structure TrainEnv (P O V : Type) where
  forward : P → Phase → V → Tensor
  criterion : List Tensor → List ℕ → ℚ
  step : P → O → List (Sample V) → P × O
  batches : Phase → List (List (Sample V))
  datasetLen : Phase → ℕ
  metricsFn : List ℕ → List ℕ → Metrics

/-- The running state of one phase of one epoch: the live parameters and
optimizer state, `running_loss`, `running_corrects`, and the per-phase
prediction / ground-truth lists. -/
structure PhaseState (P O : Type) where
  params : P
  optim : O
  runningLoss : ℚ
  runningCorrects : ℕ
  predClasses : List ℕ
  groundTruths : List ℕ

/-- The body of `for sample in pbar` (source lines 96-129): forward pass,
loss against `torch.max(labels, 1)[1]`, predictions `torch.max(outputs, 1)`,
extension of the per-phase lists, backward + optimizer step only in the
train phase, and accumulation of `running_loss` and `running_corrects`. -/
def processBatch (env : TrainEnv P O V) (phase : Phase)
    (st : PhaseState P O) (sample : List (Sample V)) : PhaseState P O :=
  let inputs := sample.map (fun s => s.video)
  let labels := sample.map (fun s => s.action)
  let outputs := inputs.map (env.forward st.params phase)
  let gts := labels.map argmax1
  let loss := env.criterion outputs gts
  let preds := outputs.map argmax1
  let next := if phase = Phase.train then env.step st.params st.optim sample
              else (st.params, st.optim)
  { params := next.1
    optim := next.2
    runningLoss := st.runningLoss + loss * inputs.length
    runningCorrects := st.runningCorrects + countCorrect preds gts
    predClasses := st.predClasses ++ preds
    groundTruths := st.groundTruths ++ gts }

/-- The batch loop with its iteration cap (source lines 94-135): `i` starts
at 0, is incremented after each batch, and the loop breaks as soon as it
reaches 10. -/
def runBatchesFrom (env : TrainEnv P O V) (phase : Phase) :
    ℕ → List (List (Sample V)) → PhaseState P O → PhaseState P O
  | _, [], st => st
  | i, b :: bs, st =>
    let st' := processBatch env phase st b
    if i + 1 = 10 then st' else runBatchesFrom env phase (i + 1) bs st'

/-- One full phase of one epoch, starting from live parameters `p` and
optimizer state `o` with freshly reset statistics (source lines 79-135). -/
def runPhase (env : TrainEnv P O V) (phase : Phase) (p : P) (o : O) :
    PhaseState P O :=
  runBatchesFrom env phase 0 (env.batches phase)
    { params := p, optim := o, runningLoss := 0, runningCorrects := 0
      predClasses := [], groundTruths := [] }

theorem runBatchesFrom_eq_foldl_take (env : TrainEnv P O V) (phase : Phase) :
    ∀ (bs : List (List (Sample V))) (i : ℕ) (st : PhaseState P O), i < 10 →
      runBatchesFrom env phase i bs st =
        List.foldl (processBatch env phase) st (bs.take (10 - i)) := by
  intro bs
  induction bs with
  | nil => intro i st _; simp [runBatchesFrom]
  | cons b bs ih =>
    intro i st hi
    by_cases h : i + 1 = 10
    · have : 10 - i = 1 := by omega
      simp [runBatchesFrom, h, this]
    · have hlt : i + 1 < 10 := by omega
      have : 10 - i = (10 - (i + 1)) + 1 := by omega
      simp only [runBatchesFrom, h, if_false, this, List.take_succ_cons,
        List.foldl_cons]
      exact ih (i + 1) (processBatch env phase st b) hlt

/-- The observable emissions of one epoch, in program order: the train-phase
statistics block (source lines 137-138 and 169-186), the val-phase
statistics block (lines 137-138 and 146-167), the `save_weights` call
(line 189) and the `write_history` call (lines 192-207). -/
inductive Event : Type where
  | statsTrain : ℕ → Event
  | statsVal : ℕ → Event
  | checkpoint : ℕ → Event
  | history : ℕ → Event
deriving DecidableEq

/-- The four emissions of epoch `e`, in the order the source performs them. -/
def epochBlock (e : ℕ) : List Event :=
  [Event.statsTrain e, Event.statsVal e, Event.checkpoint e, Event.history e]

/-- The state threaded through the epoch loop of `train_model`: the live
parameters and optimizer state, the best-accuracy snapshot
(`best_model_wts`, `best_acc`), the seven history lists, and the trace of
emissions so far. -/
structure LoopState (P O : Type) where
  params : P
  optim : O
  bestModelWts : P
  bestAcc : ℚ
  trainAccHistory : List ℚ
  valAccHistory : List ℚ
  trainLossHistory : List ℚ
  valLossHistory : List ℚ
  trainF1Score : List ℚ
  valF1Score : List ℚ
  plotEpoch : List ℕ
  trace : List Event

/-- The state at the top of the epoch loop (source lines 64-73):
`best_model_wts = copy.deepcopy(model.state_dict())`, `best_acc = 0.0`, all
history lists empty. -/
def initLoopState (p : P) (o : O) : LoopState P O :=
  { params := p, optim := o, bestModelWts := p, bestAcc := 0
    trainAccHistory := [], valAccHistory := []
    trainLossHistory := [], valLossHistory := []
    trainF1Score := [], valF1Score := []
    plotEpoch := [], trace := [] }

/-- One iteration of `for epoch in range(start_epoch, num_epochs)` (source
lines 75-207): the train phase, its statistics block, the val phase, its
statistics block with the strictly-greater best-model promotion
(lines 162-164, the snapshot being the live `model.state_dict()` after the
val-phase batch loop), then `save_weights` and `write_history`. -/
def runEpoch (env : TrainEnv P O V) (epoch : ℕ) (st : LoopState P O) :
    LoopState P O :=
  let t := runPhase env Phase.train st.params st.optim
  let trainLoss := t.runningLoss / (env.datasetLen Phase.train : ℚ)
  let trainAcc := (t.runningCorrects : ℚ) / (env.datasetLen Phase.train : ℚ)
  let tm := env.metricsFn t.predClasses t.groundTruths
  let v := runPhase env Phase.val t.params t.optim
  let valLoss := v.runningLoss / (env.datasetLen Phase.val : ℚ)
  let valAcc := (v.runningCorrects : ℚ) / (env.datasetLen Phase.val : ℚ)
  let vm := env.metricsFn v.predClasses v.groundTruths
  let best := if st.bestAcc < valAcc then (valAcc, v.params)
              else (st.bestAcc, st.bestModelWts)
  { params := v.params
    optim := v.optim
    bestModelWts := best.2
    bestAcc := best.1
    trainAccHistory := st.trainAccHistory ++ [trainAcc]
    valAccHistory := st.valAccHistory ++ [valAcc]
    trainLossHistory := st.trainLossHistory ++ [trainLoss]
    valLossHistory := st.valLossHistory ++ [valLoss]
    trainF1Score := st.trainF1Score ++ [tm.f1]
    valF1Score := st.valF1Score ++ [vm.f1]
    plotEpoch := st.plotEpoch ++ [epoch]
    trace := st.trace ++ epochBlock epoch }

/-- The epoch loop, folded over the list of epoch indices. -/
def runEpochs (env : TrainEnv P O V) :
    List ℕ → LoopState P O → LoopState P O
  | [], st => st
  | e :: es, st => runEpochs env es (runEpoch env e st)

/-- The tuple `train_model` returns (source line 215), after
`model.load_state_dict(best_model_wts)` (line 214), together with the trace
of `Event`s the run emitted. -/
structure TrainResult (P : Type) where
  model : P
  trainLossHistory : List ℚ
  valLossHistory : List ℚ
  trainAccHistory : List ℚ
  valAccHistory : List ℚ
  trainF1Score : List ℚ
  valF1Score : List ℚ
  plotEpoch : List ℕ
  trace : List Event

/-- The whole of `train_model` (source lines 48-215): run the epochs
`range(start_epoch, num_epochs)` from the initial state, load
`best_model_wts` back onto the model, and return the result tuple. -/
def train_model (env : TrainEnv P O V) (p : P) (o : O)
    (startEpoch numEpochs : ℕ) : TrainResult P :=
  let st := runEpochs env (List.range' startEpoch (numEpochs - startEpoch))
    (initLoopState p o)
  { model := st.bestModelWts
    trainLossHistory := st.trainLossHistory
    valLossHistory := st.valLossHistory
    trainAccHistory := st.trainAccHistory
    valAccHistory := st.valAccHistory
    trainF1Score := st.trainF1Score
    valF1Score := st.valF1Score
    plotEpoch := st.plotEpoch
    trace := st.trace }

/-- The loop state after the first `k` epochs of a run that starts at epoch
`s` from fresh state. -/
def stateUpTo (env : TrainEnv P O V) (p : P) (o : O) (s k : ℕ) :
    LoopState P O :=
  runEpochs env (List.range' s k) (initLoopState p o)

/-- The parameter snapshot `copy.deepcopy(model.state_dict())` as taken at
epoch `e` of a run starting at epoch `s`: the live parameters after the
train phase of epoch `e` (the val phase does not change them). -/
def snapshotAt (env : TrainEnv P O V) (p : P) (o : O) (s e : ℕ) : P :=
  let st := stateUpTo env p o s (e - s)
  (runPhase env Phase.train st.params st.optim).params

/-- The validation epoch accuracy the next epoch would record, starting from
loop state `st`: `running_corrects.double() / len(dataloaders['val'].dataset)`
for the val phase run after the train phase. -/
def valAccNext (env : TrainEnv P O V) (st : LoopState P O) : ℚ :=
  let t := runPhase env Phase.train st.params st.optim
  let v := runPhase env Phase.val t.params t.optim
  (v.runningCorrects : ℚ) / (env.datasetLen Phase.val : ℚ)

/-- Whether the best-accuracy state was updated by the `(k+1)`-st epoch of a
run starting at epoch `s`: the promotion branch (source lines 162-164)
executes exactly when it strictly increases `best_acc`, so it executed iff
`best_acc` changed. -/
def updatedAt (env : TrainEnv P O V) (p : P) (o : O) (s k : ℕ) : Prop :=
  (stateUpTo env p o s (k + 1)).bestAcc ≠ (stateUpTo env p o s k).bestAcc

theorem runEpochs_append (env : TrainEnv P O V) (l1 l2 : List ℕ)
    (st : LoopState P O) :
    runEpochs env (l1 ++ l2) st = runEpochs env l2 (runEpochs env l1 st) := by
  induction l1 generalizing st with
  | nil => rfl
  | cons e es ih => simp [runEpochs, ih]

theorem runEpochs_trace (env : TrainEnv P O V) (es : List ℕ)
    (st : LoopState P O) :
    (runEpochs env es st).trace = st.trace ++ es.flatMap epochBlock := by
  induction es generalizing st with
  | nil => simp [runEpochs]
  | cons e es ih => simp [runEpochs, ih, runEpoch, List.append_assoc]

theorem runEpochs_plotEpoch (env : TrainEnv P O V) (es : List ℕ)
    (st : LoopState P O) :
    (runEpochs env es st).plotEpoch = st.plotEpoch ++ es := by
  induction es generalizing st with
  | nil => simp [runEpochs]
  | cons e es ih => simp [runEpochs, ih, runEpoch]

theorem runEpochs_valAccHistory_ext (env : TrainEnv P O V) (es : List ℕ)
    (st : LoopState P O) :
    ∃ l : List ℚ, (runEpochs env es st).valAccHistory =
      st.valAccHistory ++ l ∧ l.length = es.length := by
  induction es generalizing st with
  | nil => exact ⟨[], by simp [runEpochs]⟩
  | cons e es ih =>
    obtain ⟨l, hl, hlen⟩ := ih (runEpoch env e st)
    refine ⟨valAccNext env st :: l, ?_, by simp [hlen]⟩
    have : (runEpoch env e st).valAccHistory =
        st.valAccHistory ++ [valAccNext env st] := by
      simp [runEpoch, valAccNext]
    simp [runEpochs, hl, this]

theorem processBatch_val_frame (env : TrainEnv P O V) (st : PhaseState P O)
    (b : List (Sample V)) :
    (processBatch env Phase.val st b).params = st.params ∧
    (processBatch env Phase.val st b).optim = st.optim := by
  simp [processBatch]

theorem runBatchesFrom_val_frame (env : TrainEnv P O V) :
    ∀ (bs : List (List (Sample V))) (i : ℕ) (st : PhaseState P O),
      (runBatchesFrom env Phase.val i bs st).params = st.params ∧
      (runBatchesFrom env Phase.val i bs st).optim = st.optim := by
  intro bs
  induction bs with
  | nil => intro i st; simp [runBatchesFrom]
  | cons b bs ih =>
    intro i st
    by_cases h : i + 1 = 10
    · simp [runBatchesFrom, h, processBatch]
    · have := ih (i + 1) (processBatch env Phase.val st b)
      simp only [runBatchesFrom, h, if_false] at this ⊢
      simpa [processBatch] using this

theorem runPhase_val_frame (env : TrainEnv P O V) (p : P) (o : O) :
    (runPhase env Phase.val p o).params = p ∧
    (runPhase env Phase.val p o).optim = o :=
  runBatchesFrom_val_frame env (env.batches Phase.val) 0 _

theorem epochBlock_count_statsTrain (e e' : ℕ) :
    (epochBlock e').count (Event.statsTrain e) = if e' = e then 1 else 0 := by
  by_cases h : e' = e <;> simp [epochBlock, h, List.count_cons]

theorem epochBlock_count_statsVal (e e' : ℕ) :
    (epochBlock e').count (Event.statsVal e) = if e' = e then 1 else 0 := by
  by_cases h : e' = e <;> simp [epochBlock, h, List.count_cons]

theorem epochBlock_count_checkpoint (e e' : ℕ) :
    (epochBlock e').count (Event.checkpoint e) = if e' = e then 1 else 0 := by
  by_cases h : e' = e <;> simp [epochBlock, h, List.count_cons]

theorem epochBlock_count_history (e e' : ℕ) :
    (epochBlock e').count (Event.history e) = if e' = e then 1 else 0 := by
  by_cases h : e' = e <;> simp [epochBlock, h, List.count_cons]

theorem flatMap_block_count (l : List ℕ) (ev : Event) (e : ℕ)
    (h : ∀ e', (epochBlock e').count ev = if e' = e then 1 else 0) :
    (l.flatMap epochBlock).count ev = l.count e := by
  induction l with
  | nil => simp
  | cons a l ih =>
    rw [List.flatMap_cons, List.count_append, ih, h a, List.count_cons]
    by_cases hae : e = a
    · simp [hae]; omega
    · have : ¬ a = e := fun hc => hae hc.symm
      simp [hae, this]

theorem count_range'_eq_one (s k e : ℕ) (he : e ∈ List.range' s k) :
    (List.range' s k).count e = 1 := by
  have h1 : 1 ≤ (List.range' s k).count e := List.one_le_count_iff.mpr he
  have h2 : (List.range' s k).count e ≤ 1 :=
    List.nodup_iff_count_le_one.mp (List.nodup_range' s k) e
  omega

/-- C3: in the val phase no model parameter changes: the backward pass and
the optimizer step run only when `phase == train` (source lines 123-125), so
after a val phase — and already after each of its batches — the parameters
(and the optimizer state) are identical to their values before the phase,
although the forward pass still runs and statistics are accumulated. -/
theorem C3_val_phase_is_readonly (env : TrainEnv P O V) (p : P) (o : O) :
    (runPhase env Phase.val p o).params = p ∧
    (runPhase env Phase.val p o).optim = o ∧
    ∀ (st : PhaseState P O) (b : List (Sample V)),
      (processBatch env Phase.val st b).params = st.params ∧
      (processBatch env Phase.val st b).optim = st.optim := by
  refine ⟨(runPhase_val_frame env p o).1, (runPhase_val_frame env p o).2, ?_⟩
  intro st b
  exact processBatch_val_frame env st b

/-- C4: every completed epoch emits exactly one train-phase statistics
block, one val-phase statistics block, one checkpoint (`save_weights`) and
one history record (`write_history`), in that order: the full trace of a run
is the concatenation, epoch by epoch, of the four-event block
`[statsTrain e, statsVal e, checkpoint e, history e]`, and each of the four
events occurs exactly once per completed epoch. -/
theorem C4_one_block_per_epoch (env : TrainEnv P O V) (p : P) (o : O)
    (s n : ℕ) :
    (train_model env p o s n).trace =
      (List.range' s (n - s)).flatMap epochBlock ∧
    ∀ e ∈ List.range' s (n - s),
      (train_model env p o s n).trace.count (Event.statsTrain e) = 1 ∧
      (train_model env p o s n).trace.count (Event.statsVal e) = 1 ∧
      (train_model env p o s n).trace.count (Event.checkpoint e) = 1 ∧
      (train_model env p o s n).trace.count (Event.history e) = 1 := by
  have htr : (train_model env p o s n).trace =
      (List.range' s (n - s)).flatMap epochBlock := by
    have := runEpochs_trace env (List.range' s (n - s))
      (initLoopState (P := P) (O := O) p o)
    simpa [train_model, initLoopState] using this
  refine ⟨htr, ?_⟩
  intro e he
  have hcnt := count_range'_eq_one s (n - s) e he
  refine ⟨?_, ?_, ?_, ?_⟩ <;> rw [htr]
  · rw [flatMap_block_count _ _ e (fun e' => epochBlock_count_statsTrain e e')]
    exact hcnt
  · rw [flatMap_block_count _ _ e (fun e' => epochBlock_count_statsVal e e')]
    exact hcnt
  · rw [flatMap_block_count _ _ e (fun e' => epochBlock_count_checkpoint e e')]
    exact hcnt
  · rw [flatMap_block_count _ _ e (fun e' => epochBlock_count_history e e')]
    exact hcnt

/-- C5: running `train_model` with `num_epochs = start_epoch` executes zero
epochs (`range(start_epoch, num_epochs)` is empty): every returned history
sequence is empty and the returned model carries the initial parameters,
because the initial `best_model_wts` snapshot is loaded back. -/
theorem C5_zero_epochs (env : TrainEnv P O V) (p : P) (o : O) (s : ℕ) :
    (train_model env p o s s).model = p ∧
    (train_model env p o s s).trainLossHistory = [] ∧
    (train_model env p o s s).valLossHistory = [] ∧
    (train_model env p o s s).trainAccHistory = [] ∧
    (train_model env p o s s).valAccHistory = [] ∧
    (train_model env p o s s).trainF1Score = [] ∧
    (train_model env p o s s).valF1Score = [] ∧
    (train_model env p o s s).plotEpoch = [] := by
  simp [train_model, Nat.sub_self, List.range', runEpochs, initLoopState]

/-- C6: in every phase of every epoch the batch loop consumes at most 10
batches: it runs the iterator to exhaustion or to the fixed cap of 10,
whichever comes first (`i += 1; if i == 10: break`, source lines 133-135),
so the phase is a fold over exactly the first `min(number of batches, 10)`
batches and later batches are never consumed. -/
theorem C6_batch_cap_10 (env : TrainEnv P O V) (phase : Phase) (p : P)
    (o : O) :
    runPhase env phase p o =
      List.foldl (processBatch env phase)
        { params := p, optim := o, runningLoss := 0, runningCorrects := 0
          predClasses := [], groundTruths := [] }
        ((env.batches phase).take 10) ∧
    ((env.batches phase).take 10).length =
      min (env.batches phase).length 10 := by
  constructor
  · have := runBatchesFrom_eq_foldl_take env phase (env.batches phase) 0
      { params := p, optim := o, runningLoss := 0, runningCorrects := 0
        predClasses := [], groundTruths := [] } (by omega)
    simpa [runPhase] using this
  · simp [List.length_take, Nat.min_comm]

theorem foldl_processBatch_groundTruths (env : TrainEnv P O V) (phase : Phase) :
    ∀ (bs : List (List (Sample V))) (st : PhaseState P O),
      (List.foldl (processBatch env phase) st bs).groundTruths =
        st.groundTruths ++
          bs.flatMap (fun b => (b.map (fun s => s.action)).map argmax1) := by
  intro bs
  induction bs with
  | nil => intro st; simp
  | cons b bs ih =>
    intro st
    rw [List.foldl_cons, ih, List.flatMap_cons]
    simp [processBatch, List.append_assoc]

/-- C8: for every batch in either phase the loss is the criterion applied to
the model outputs and to the ground-truth class indices
`torch.max(labels, 1)[1]` — the argmax of each one-hot label row, not the
one-hot row itself (source line 109) — and exactly those argmax indices are
the ones appended to the phase's ground-truth list (lines 117 and 120), so
the ground-truth list of a whole phase is the concatenation of the per-batch
argmax index lists. -/
theorem C8_loss_against_argmax_labels (env : TrainEnv P O V) (phase : Phase) :
    (∀ (st : PhaseState P O) (b : List (Sample V)),
      (processBatch env phase st b).runningLoss =
        st.runningLoss +
          env.criterion
            ((b.map (fun s => s.video)).map (env.forward st.params phase))
            ((b.map (fun s => s.action)).map argmax1) * (b.length : ℚ) ∧
      (processBatch env phase st b).groundTruths =
        st.groundTruths ++ (b.map (fun s => s.action)).map argmax1) ∧
    ∀ (p : P) (o : O),
      (runPhase env phase p o).groundTruths =
        ((env.batches phase).take 10).flatMap
          (fun b => (b.map (fun s => s.action)).map argmax1) := by
  constructor
  · intro st b
    constructor
    · simp [processBatch]
    · simp [processBatch]
  · intro p o
    have h1 := runBatchesFrom_eq_foldl_take env phase (env.batches phase) 0
      { params := p, optim := o, runningLoss := 0, runningCorrects := 0
        predClasses := [], groundTruths := [] } (by omega)
    have h2 := foldl_processBatch_groundTruths env phase
      ((env.batches phase).take 10)
      { params := p, optim := o, runningLoss := 0, runningCorrects := 0
        predClasses := [], groundTruths := [] }
    simp only [runPhase, h1]
    simpa using h2

/-- Modelled from the spec: `sklearn.metrics.confusion_matrix(y_true, y_pred,
labels)` as called at source lines 155 and 178 — sklearn is an external
library whose source is not part of this repository, so its documented
semantics is embedded: the entry at row `i`, column `j` counts the positions
whose ground truth is `labels[i]` and whose prediction is `labels[j]`
(rows = ground truth, columns = prediction, over the full fixed label set). -/
def confusion_matrix (yTrue yPred : List ℕ) (labels : List ℕ) :
    List (List ℕ) :=
  labels.map (fun t => labels.map (fun q =>
    (yTrue.zip yPred).countP (fun x => x.1 == t && x.2 == q)))

theorem sum_map_ite_range (a : ℕ) :
    ∀ m : ℕ, ((List.range m).map (fun q => if a = q then (1 : ℕ) else 0)).sum
      = if a < m then 1 else 0 := by
  intro m
  induction m with
  | zero => simp
  | succ m ih =>
    rw [List.range_succ, List.map_append, List.sum_append, ih]
    by_cases h1 : a < m
    · have h2 : a ≠ m := by omega
      have h3 : a < m + 1 := by omega
      simp [h1, h2, h3]
    · by_cases h2 : a = m
      · have h3 : a < m + 1 := by omega
        simp [h1, h2, h3]
      · have h3 : ¬ a < m + 1 := by omega
        simp [h1, h2, h3]

theorem sum_row_counts (t n : ℕ) :
    ∀ l : List (ℕ × ℕ), (∀ x ∈ l, x.2 < n) →
      ((List.range n).map (fun q =>
        l.countP (fun x => x.1 == t && x.2 == q))).sum =
      l.countP (fun x => x.1 == t) := by
  intro l
  induction l with
  | nil => simp
  | cons x l ih =>
    intro h
    have hx : x.2 < n := h x (List.mem_cons_self x l)
    have hl : ∀ y ∈ l, y.2 < n := fun y hy => h y (List.mem_cons_of_mem x hy)
    simp only [List.countP_cons]
    have hsplit :
        ((List.range n).map (fun q =>
          l.countP (fun x => x.1 == t && x.2 == q) +
            if (x.1 == t && x.2 == q) = true then 1 else 0)).sum =
        ((List.range n).map (fun q =>
          l.countP (fun x => x.1 == t && x.2 == q))).sum +
        ((List.range n).map (fun q =>
          if (x.1 == t && x.2 == q) = true then 1 else 0)).sum := by
      induction (List.range n) with
      | nil => simp
      | cons q qs ihq => simp [ihq]; ring
    rw [hsplit, ih hl]
    by_cases hxt : x.1 = t
    · have : ((List.range n).map (fun q =>
          if (x.1 == t && x.2 == q) = true then 1 else 0)).sum =
          ((List.range n).map (fun q =>
            if x.2 = q then (1 : ℕ) else 0)).sum := by
        apply congrArg
        apply List.map_congr_left
        intro q _
        by_cases hq : x.2 = q <;> simp [hxt, hq]
      rw [this, sum_map_ite_range x.2 n]
      simp [hxt, hx]
    · have : ((List.range n).map (fun q =>
          if (x.1 == t && x.2 == q) = true then 1 else 0)).sum = 0 := by
        apply List.sum_eq_zero
        intro y hy
        obtain ⟨q, _, hq⟩ := List.mem_map.mp hy
        simp [hxt] at hq
        omega
      rw [this]
      simp [hxt]

theorem countP_zip_fst_eq (t : ℕ) :
    ∀ (l1 l2 : List ℕ), l1.length = l2.length →
      (l1.zip l2).countP (fun x => x.1 == t) = l1.count t := by
  intro l1
  induction l1 with
  | nil => intro l2 _; simp
  | cons a l1 ih =>
    intro l2 hlen
    cases l2 with
    | nil => simp at hlen
    | cons b l2 =>
      simp only [List.zip_cons_cons, List.countP_cons, List.count_cons]
      rw [ih l2 (by simpa using hlen)]

/-- C7: for equal-length prediction and ground-truth sequences with values in
the fixed class set `{0,...,9}`, the per-phase confusion matrix over the full
fixed label set is a 10 × 10 count matrix, rows indexed by ground truth and
columns by prediction, each row's sum equals the number of occurrences of
that class in the ground-truth sequence, and a class absent from the phase
contributes an all-zero row. -/
theorem C7_confusion_matrix_row_sums (yTrue yPred : List ℕ)
    (hlen : yTrue.length = yPred.length)
    (_ht : ∀ v ∈ yTrue, v < 10) (hp : ∀ v ∈ yPred, v < 10) :
    (confusion_matrix yTrue yPred (List.range 10)).length = 10 ∧
    (∀ row ∈ confusion_matrix yTrue yPred (List.range 10), row.length = 10) ∧
    (∀ i, i < 10 →
      ((confusion_matrix yTrue yPred (List.range 10)).getD i []).sum =
        yTrue.count i) ∧
    (∀ i, i < 10 → yTrue.count i = 0 →
      (confusion_matrix yTrue yPred (List.range 10)).getD i [] =
        List.replicate 10 0) := by
  have hMlen : (confusion_matrix yTrue yPred (List.range 10)).length = 10 := by
    simp [confusion_matrix]
  have hrow : ∀ i, i < 10 →
      (confusion_matrix yTrue yPred (List.range 10)).getD i [] =
        (List.range 10).map (fun q =>
          (yTrue.zip yPred).countP (fun x => x.1 == i && x.2 == q)) := by
    intro i hi
    rw [List.getD_eq_getElem _ _ (by omega)]
    simp [confusion_matrix]
  have hzip : ∀ x ∈ yTrue.zip yPred, x.2 < 10 := by
    intro x hx
    exact hp x.2 (List.of_mem_zip hx).2
  have hsum : ∀ i, i < 10 →
      ((confusion_matrix yTrue yPred (List.range 10)).getD i []).sum =
        yTrue.count i := by
    intro i hi
    rw [hrow i hi, sum_row_counts i 10 (yTrue.zip yPred) hzip,
      countP_zip_fst_eq i yTrue yPred hlen]
  refine ⟨hMlen, ?_, hsum, ?_⟩
  · intro row hr
    obtain ⟨t, _, ht'⟩ := List.mem_map.mp hr
    simp [← ht']
  · intro i hi hcnt
    have hz := hsum i hi
    rw [hcnt] at hz
    have hall : ∀ x ∈ (confusion_matrix yTrue yPred (List.range 10)).getD i [],
        x = 0 := List.sum_eq_zero_iff.mp hz
    have hlr : ((confusion_matrix yTrue yPred (List.range 10)).getD i []).length
        = 10 := by
      rw [hrow i hi]; simp
    exact List.eq_replicate_iff.mpr ⟨hlr, hall⟩

/-- C7 witness: the spec's worked example, predicted `[0,1,1,2]` against
ground truth `[0,1,2,2]`, over the fixed label set `{0,...,9}`. -/
theorem C7_confusion_matrix_row_sums_witness :
    (([0, 1, 2, 2] : List ℕ).length = ([0, 1, 1, 2] : List ℕ).length ∧
      (∀ v ∈ ([0, 1, 2, 2] : List ℕ), v < 10) ∧
      (∀ v ∈ ([0, 1, 1, 2] : List ℕ), v < 10)) ∧
    ((confusion_matrix [0, 1, 2, 2] [0, 1, 1, 2] (List.range 10)).length = 10 ∧
     (∀ row ∈ confusion_matrix [0, 1, 2, 2] [0, 1, 1, 2] (List.range 10),
        row.length = 10) ∧
     (∀ i, i < 10 →
        ((confusion_matrix [0, 1, 2, 2] [0, 1, 1, 2] (List.range 10)).getD
          i []).sum = ([0, 1, 2, 2] : List ℕ).count i) ∧
     (∀ i, i < 10 → ([0, 1, 2, 2] : List ℕ).count i = 0 →
        (confusion_matrix [0, 1, 2, 2] [0, 1, 1, 2] (List.range 10)).getD
          i [] = List.replicate 10 0)) :=
  ⟨⟨by decide, by decide, by decide⟩,
    C7_confusion_matrix_row_sums [0, 1, 2, 2] [0, 1, 1, 2]
      (by decide) (by decide) (by decide)⟩

/-- Modelled from the spec: the accuracy computed by
`get_acc_f1_precision_recall` of `utils/metrics.py` (a repository file that
is not included under src): the fraction of positions where the predicted
class index equals the ground-truth class index. -/
def metricsAccuracy (preds gts : List ℕ) : ℚ :=
  (countCorrect preds gts : ℚ) / (preds.length : ℚ)

theorem countCorrect_append (p1 g1 p2 g2 : List ℕ)
    (h : p1.length = g1.length) :
    countCorrect (p1 ++ p2) (g1 ++ g2) =
      countCorrect p1 g1 + countCorrect p2 g2 := by
  unfold countCorrect
  rw [List.zip_append h, List.countP_append]

theorem countCorrect_le_length (p g : List ℕ) :
    countCorrect p g ≤ p.length := by
  unfold countCorrect
  calc (p.zip g).countP (fun pg => pg.1 == pg.2) ≤ (p.zip g).length :=
        List.countP_le_length _
    _ ≤ p.length := by rw [List.length_zip]; omega

theorem foldl_processBatch_stats (env : TrainEnv P O V) (phase : Phase) :
    ∀ (bs : List (List (Sample V))) (st : PhaseState P O),
      st.predClasses.length = st.groundTruths.length →
      st.runningCorrects = countCorrect st.predClasses st.groundTruths →
      ((List.foldl (processBatch env phase) st bs).predClasses.length =
        (List.foldl (processBatch env phase) st bs).groundTruths.length ∧
       (List.foldl (processBatch env phase) st bs).runningCorrects =
        countCorrect (List.foldl (processBatch env phase) st bs).predClasses
          (List.foldl (processBatch env phase) st bs).groundTruths) := by
  intro bs
  induction bs with
  | nil => intro st h1 h2; exact ⟨h1, h2⟩
  | cons b bs ih =>
    intro st h1 h2
    rw [List.foldl_cons]
    apply ih
    · simp [processBatch, h1]
    · have hcc := countCorrect_append st.predClasses st.groundTruths
        (b.map (argmax1 ∘ env.forward st.params phase ∘ fun s => s.video))
        (b.map (argmax1 ∘ fun s => s.action)) h1
      simp only [processBatch, List.map_map]
      rw [hcc, h2]

theorem runPhase_stats (env : TrainEnv P O V) (phase : Phase) (p : P)
    (o : O) :
    (runPhase env phase p o).predClasses.length =
      (runPhase env phase p o).groundTruths.length ∧
    (runPhase env phase p o).runningCorrects =
      countCorrect (runPhase env phase p o).predClasses
        (runPhase env phase p o).groundTruths ∧
    (runPhase env phase p o).runningCorrects ≤
      (runPhase env phase p o).predClasses.length := by
  have hf := runBatchesFrom_eq_foldl_take env phase (env.batches phase) 0
    { params := p, optim := o, runningLoss := 0, runningCorrects := 0
      predClasses := [], groundTruths := [] } (by omega)
  have hs := foldl_processBatch_stats env phase ((env.batches phase).take 10)
    { params := p, optim := o, runningLoss := 0, runningCorrects := 0
      predClasses := [], groundTruths := [] } (by simp) (by simp [countCorrect])
  rw [runPhase, hf]
  exact ⟨hs.1, hs.2, hs.2 ▸ countCorrect_le_length _ _⟩

/-- C10: the per-phase epoch accuracy that is appended to the accuracy
histories and compared against `best_acc` is
`running_corrects / len(dataloaders[phase].dataset)` (source line 138) — the
denominator is the full dataset length, not the number of samples actually
processed; whenever the 10-batch cap or a short dataloader leaves the
processed-sample count below the dataset length and at least one prediction
is correct, this epoch accuracy is strictly smaller than the fraction of
correct predictions among the processed samples, which is exactly the
accuracy the Metrics Calculator computes over the recorded prediction
lists, so the two accuracies differ. -/
theorem C10_epoch_acc_divides_by_dataset_length (env : TrainEnv P O V)
    (e : ℕ) (st : LoopState P O) (phase : Phase) (p : P) (o : O)
    (hproc : (runPhase env phase p o).predClasses.length <
      env.datasetLen phase)
    (hcorr : 0 < (runPhase env phase p o).runningCorrects) :
    ((runEpoch env e st).valAccHistory = st.valAccHistory ++
      [((runPhase env Phase.val
          (runPhase env Phase.train st.params st.optim).params
          (runPhase env Phase.train st.params st.optim).optim).runningCorrects
         : ℚ) / (env.datasetLen Phase.val : ℚ)] ∧
     (runEpoch env e st).bestAcc = max st.bestAcc
       (((runPhase env Phase.val
          (runPhase env Phase.train st.params st.optim).params
          (runPhase env Phase.train st.params st.optim).optim).runningCorrects
         : ℚ) / (env.datasetLen Phase.val : ℚ))) ∧
    ((runPhase env phase p o).runningCorrects : ℚ) /
        (env.datasetLen phase : ℚ) <
      ((runPhase env phase p o).runningCorrects : ℚ) /
        ((runPhase env phase p o).predClasses.length : ℚ) ∧
    metricsAccuracy (runPhase env phase p o).predClasses
        (runPhase env phase p o).groundTruths ≠
      ((runPhase env phase p o).runningCorrects : ℚ) /
        (env.datasetLen phase : ℚ) := by
  have hstats := runPhase_stats env phase p o
  have hproc0 : 0 < (runPhase env phase p o).predClasses.length := by
    have := hstats.2.2; omega
  have hlt : ((runPhase env phase p o).runningCorrects : ℚ) /
      (env.datasetLen phase : ℚ) <
      ((runPhase env phase p o).runningCorrects : ℚ) /
      ((runPhase env phase p o).predClasses.length : ℚ) := by
    rw [div_lt_div_iff_of_pos_left (by exact_mod_cast hcorr)
      (by exact_mod_cast lt_trans hproc0 hproc) (by exact_mod_cast hproc0)]
    exact_mod_cast hproc
  refine ⟨⟨?_, ?_⟩, hlt, ?_⟩
  · simp [runEpoch]
  · show (if st.bestAcc < _ then _ else ((st.bestAcc : ℚ), st.bestModelWts)).1 = _
    by_cases h : st.bestAcc <
        ((runPhase env Phase.val
          (runPhase env Phase.train st.params st.optim).params
          (runPhase env Phase.train st.params st.optim).optim).runningCorrects
         : ℚ) / (env.datasetLen Phase.val : ℚ)
    · simp [h, max_eq_right (le_of_lt h)]
    · simp [h, max_eq_left (not_lt.mp h)]
  · have hacc : metricsAccuracy (runPhase env phase p o).predClasses
        (runPhase env phase p o).groundTruths =
        ((runPhase env phase p o).runningCorrects : ℚ) /
          ((runPhase env phase p o).predClasses.length : ℚ) := by
      rw [metricsAccuracy, hstats.2.1]
    rw [hacc]
    exact ne_of_gt hlt

/-- A one-sample batch whose one-hot label selects class 0. -/
def wSample : Sample Unit := { video := (), action := [1, 0] }

/-- A concrete environment for witnesses: one single-sample batch per phase,
a model that always predicts class 0 (correctly), and a dataset of declared
length 5, so only 1 of 5 samples is processed. -/
def w10Env : TrainEnv ℕ Unit Unit :=
  { forward := fun _ _ _ => [1, 0]
    criterion := fun _ _ => 0
    step := fun p o _ => (p, o)
    batches := fun _ => [[wSample]]
    datasetLen := fun _ => 5
    metricsFn := fun _ _ => { accuracy := 0, f1 := 0, precision := 0, recallScore := 0 } }

/-- C10 witness: in `w10Env` one sample is processed out of a declared
dataset length of 5 and the prediction is correct, so the recorded epoch
accuracy 1/5 is strictly below the processed-sample accuracy 1. -/
theorem C10_epoch_acc_divides_by_dataset_length_witness :
    ((runPhase w10Env Phase.val 0 ()).predClasses.length <
        w10Env.datasetLen Phase.val ∧
      0 < (runPhase w10Env Phase.val 0 ()).runningCorrects) ∧
    (((runEpoch w10Env 1 (initLoopState 0 ())).valAccHistory =
        (initLoopState (P := ℕ) (O := Unit) 0 ()).valAccHistory ++
        [((runPhase w10Env Phase.val
            (runPhase w10Env Phase.train
              (initLoopState (P := ℕ) (O := Unit) 0 ()).params
              (initLoopState (P := ℕ) (O := Unit) 0 ()).optim).params
            (runPhase w10Env Phase.train
              (initLoopState (P := ℕ) (O := Unit) 0 ()).params
              (initLoopState (P := ℕ) (O := Unit) 0 ()).optim).optim
          ).runningCorrects : ℚ) / (w10Env.datasetLen Phase.val : ℚ)] ∧
      (runEpoch w10Env 1 (initLoopState 0 ())).bestAcc =
        max (initLoopState (P := ℕ) (O := Unit) 0 ()).bestAcc
          (((runPhase w10Env Phase.val
            (runPhase w10Env Phase.train
              (initLoopState (P := ℕ) (O := Unit) 0 ()).params
              (initLoopState (P := ℕ) (O := Unit) 0 ()).optim).params
            (runPhase w10Env Phase.train
              (initLoopState (P := ℕ) (O := Unit) 0 ()).params
              (initLoopState (P := ℕ) (O := Unit) 0 ()).optim).optim
          ).runningCorrects : ℚ) / (w10Env.datasetLen Phase.val : ℚ))) ∧
    ((runPhase w10Env Phase.val 0 ()).runningCorrects : ℚ) /
        (w10Env.datasetLen Phase.val : ℚ) <
      ((runPhase w10Env Phase.val 0 ()).runningCorrects : ℚ) /
        ((runPhase w10Env Phase.val 0 ()).predClasses.length : ℚ) ∧
    metricsAccuracy (runPhase w10Env Phase.val 0 ()).predClasses
        (runPhase w10Env Phase.val 0 ()).groundTruths ≠
      ((runPhase w10Env Phase.val 0 ()).runningCorrects : ℚ) /
        (w10Env.datasetLen Phase.val : ℚ)) :=
  ⟨⟨by decide, by decide⟩,
    C10_epoch_acc_divides_by_dataset_length w10Env 1 (initLoopState 0 ())
      Phase.val 0 () (by decide) (by decide)⟩

/-- The collaborators of `train_model` with failure made explicit: every
call into the model, the loss, the optimizer, the metrics module or the
checkpoint store may raise, modelled as `Except.error`.  `train_model`
itself contains no `try`/`except` (source lines 48-215), so the embedding
threads every error outward unchanged. -/
structure TrainEnvE (P O V E : Type) where
  forward : P → Phase → V → Except E Tensor
  criterion : List Tensor → List ℕ → Except E ℚ
  step : P → O → List (Sample V) → Except E (P × O)
  batches : Phase → List (List (Sample V))
  datasetLen : Phase → ℕ
  metricsFn : List ℕ → List ℕ → Except E Metrics
  saveWeights : P → ℕ → Except E Unit
  writeHistory : ℕ → Except E Unit

/-- The batch body of the loop with fallible collaborators; identical in
structure to `processBatch`. -/
def processBatchE (env : TrainEnvE P O V E) (phase : Phase)
    (st : PhaseState P O) (sample : List (Sample V)) :
    Except E (PhaseState P O) := do
  let inputs := sample.map (fun s => s.video)
  let labels := sample.map (fun s => s.action)
  let outputs ← inputs.mapM (env.forward st.params phase)
  let gts := labels.map argmax1
  let loss ← env.criterion outputs gts
  let preds := outputs.map argmax1
  let next ← if phase = Phase.train then env.step st.params st.optim sample
             else pure (st.params, st.optim)
  pure { params := next.1
         optim := next.2
         runningLoss := st.runningLoss + loss * inputs.length
         runningCorrects := st.runningCorrects + countCorrect preds gts
         predClasses := st.predClasses ++ preds
         groundTruths := st.groundTruths ++ gts }

/-- The capped batch loop with fallible collaborators; a failing batch
aborts the phase immediately, identical in structure to `runBatchesFrom`. -/
def runBatchesFromE (env : TrainEnvE P O V E) (phase : Phase) :
    ℕ → List (List (Sample V)) → PhaseState P O → Except E (PhaseState P O)
  | _, [], st => Except.ok st
  | i, b :: bs, st =>
    match processBatchE env phase st b with
    | Except.error err => Except.error err
    | Except.ok st' =>
      if i + 1 = 10 then Except.ok st'
      else runBatchesFromE env phase (i + 1) bs st'

/-- One phase with fallible collaborators. -/
def runPhaseE (env : TrainEnvE P O V E) (phase : Phase) (p : P) (o : O) :
    Except E (PhaseState P O) :=
  runBatchesFromE env phase 0 (env.batches phase)
    { params := p, optim := o, runningLoss := 0, runningCorrects := 0
      predClasses := [], groundTruths := [] }

/-- The loop state after a fully successful epoch of the fallible embedding,
given the two phase results and the two metric results. -/
def epochSuccState (env : TrainEnvE P O V E) (epoch : ℕ) (st : LoopState P O)
    (t : PhaseState P O) (tm : Metrics) (v : PhaseState P O) (vm : Metrics) :
    LoopState P O :=
  let trainLoss := t.runningLoss / (env.datasetLen Phase.train : ℚ)
  let trainAcc := (t.runningCorrects : ℚ) / (env.datasetLen Phase.train : ℚ)
  let valLoss := v.runningLoss / (env.datasetLen Phase.val : ℚ)
  let valAcc := (v.runningCorrects : ℚ) / (env.datasetLen Phase.val : ℚ)
  let best := if st.bestAcc < valAcc then (valAcc, v.params)
              else (st.bestAcc, st.bestModelWts)
  { params := v.params
    optim := v.optim
    bestModelWts := best.2
    bestAcc := best.1
    trainAccHistory := st.trainAccHistory ++ [trainAcc]
    valAccHistory := st.valAccHistory ++ [valAcc]
    trainLossHistory := st.trainLossHistory ++ [trainLoss]
    valLossHistory := st.valLossHistory ++ [valLoss]
    trainF1Score := st.trainF1Score ++ [tm.f1]
    valF1Score := st.valF1Score ++ [vm.f1]
    plotEpoch := st.plotEpoch ++ [epoch]
    trace := st.trace ++ epochBlock epoch }

/-- One epoch with fallible collaborators.  Returns the events the epoch
emitted before finishing or failing, and either the next loop state or the
propagated error.  A failure in the train phase or its metrics happens
before the train statistics block completes; a failure in the val phase or
its metrics leaves only the train block emitted; a failing `save_weights`
leaves both statistics blocks; a failing `write_history` leaves the
checkpoint in place as well. -/
def runEpochE (env : TrainEnvE P O V E) (epoch : ℕ) (st : LoopState P O) :
    List Event × Except E (LoopState P O) :=
  match runPhaseE env Phase.train st.params st.optim with
  | Except.error err => ([], Except.error err)
  | Except.ok t =>
    match env.metricsFn t.predClasses t.groundTruths with
    | Except.error err => ([], Except.error err)
    | Except.ok tm =>
      match runPhaseE env Phase.val t.params t.optim with
      | Except.error err => ([Event.statsTrain epoch], Except.error err)
      | Except.ok v =>
        match env.metricsFn v.predClasses v.groundTruths with
        | Except.error err => ([Event.statsTrain epoch], Except.error err)
        | Except.ok vm =>
          match env.saveWeights v.params epoch with
          | Except.error err =>
            ([Event.statsTrain epoch, Event.statsVal epoch], Except.error err)
          | Except.ok _ =>
            match env.writeHistory epoch with
            | Except.error err =>
              ([Event.statsTrain epoch, Event.statsVal epoch,
                Event.checkpoint epoch], Except.error err)
            | Except.ok _ =>
              (epochBlock epoch,
                Except.ok (epochSuccState env epoch st t tm v vm))

/-- The epoch loop with fallible collaborators: a failing epoch aborts the
remaining epochs; the events of the completed epochs stay emitted. -/
def runEpochsE (env : TrainEnvE P O V E) :
    List ℕ → LoopState P O → List Event × Except E (LoopState P O)
  | [], st => ([], Except.ok st)
  | e :: es, st =>
    match runEpochE env e st with
    | (evs, Except.error err) => (evs, Except.error err)
    | (evs, Except.ok st') =>
      let r := runEpochsE env es st'
      (evs ++ r.1, r.2)

/-- The whole of `train_model` with fallible collaborators: either the
result tuple, or the first error, together with the events emitted before
it. -/
def train_modelE (env : TrainEnvE P O V E) (p : P) (o : O)
    (startEpoch numEpochs : ℕ) : List Event × Except E (TrainResult P) :=
  match runEpochsE env (List.range' startEpoch (numEpochs - startEpoch))
      (initLoopState p o) with
  | (evs, Except.error err) => (evs, Except.error err)
  | (evs, Except.ok st) =>
    (evs, Except.ok
      { model := st.bestModelWts
        trainLossHistory := st.trainLossHistory
        valLossHistory := st.valLossHistory
        trainAccHistory := st.trainAccHistory
        valAccHistory := st.valAccHistory
        trainF1Score := st.trainF1Score
        valF1Score := st.valF1Score
        plotEpoch := st.plotEpoch
        trace := st.trace })

theorem take_range' (s n k : ℕ) (h : k ≤ n) :
    (List.range' s n).take k = List.range' s k := by
  have happ : List.range' s k ++ List.range' (s + k) (n - k) =
      List.range' s n := by
    have h2 := List.range'_append s k (n - k) 1
    simp only [Nat.one_mul, Nat.mul_one] at h2
    rw [h2]
    congr 1
    omega
  rw [← happ]
  exact List.take_left' (List.length_range' ..)

theorem runEpochE_cases (env : TrainEnvE P O V E) (e : ℕ)
    (st : LoopState P O) :
    (∃ st', runEpochE env e st = (epochBlock e, Except.ok st')) ∨
    (∃ err, ∃ pre post : List Event,
      runEpochE env e st = (pre, Except.error err) ∧
      epochBlock e = pre ++ post ∧ post ≠ []) := by
  cases h1 : runPhaseE env Phase.train st.params st.optim with
  | error err =>
    right
    exact ⟨err, [], epochBlock e, by simp [runEpochE, h1], by simp,
      by simp [epochBlock]⟩
  | ok t =>
    cases h2 : env.metricsFn t.predClasses t.groundTruths with
    | error err =>
      right
      exact ⟨err, [], epochBlock e, by simp [runEpochE, h1, h2], by simp,
        by simp [epochBlock]⟩
    | ok tm =>
      cases h3 : runPhaseE env Phase.val t.params t.optim with
      | error err =>
        right
        exact ⟨err, [Event.statsTrain e],
          [Event.statsVal e, Event.checkpoint e, Event.history e],
          by simp [runEpochE, h1, h2, h3], by simp [epochBlock], by simp⟩
      | ok v =>
        cases h4 : env.metricsFn v.predClasses v.groundTruths with
        | error err =>
          right
          exact ⟨err, [Event.statsTrain e],
            [Event.statsVal e, Event.checkpoint e, Event.history e],
            by simp [runEpochE, h1, h2, h3, h4], by simp [epochBlock],
            by simp⟩
        | ok vm =>
          cases h5 : env.saveWeights v.params e with
          | error err =>
            right
            exact ⟨err, [Event.statsTrain e, Event.statsVal e],
              [Event.checkpoint e, Event.history e],
              by simp [runEpochE, h1, h2, h3, h4, h5], by simp [epochBlock],
              by simp⟩
          | ok u =>
            cases h6 : env.writeHistory e with
            | error err =>
              right
              exact ⟨err,
                [Event.statsTrain e, Event.statsVal e, Event.checkpoint e],
                [Event.history e], by simp [runEpochE, h1, h2, h3, h4, h5, h6],
                by simp [epochBlock], by simp⟩
            | ok u' =>
              left
              exact ⟨epochSuccState env e st t tm v vm,
                by simp [runEpochE, h1, h2, h3, h4, h5, h6]⟩

theorem runEpochsE_error_shape (env : TrainEnvE P O V E) :
    ∀ (l : List ℕ) (st : LoopState P O) (evs : List Event) (err : E),
      runEpochsE env l st = (evs, Except.error err) →
      ∃ k, ∃ hk : k < l.length, ∃ pre post : List Event,
        evs = (l.take k).flatMap epochBlock ++ pre ∧
        epochBlock (l.get ⟨k, hk⟩) = pre ++ post ∧ post ≠ [] := by
  intro l
  induction l with
  | nil =>
    intro st evs err h
    simp [runEpochsE] at h
  | cons e es ih =>
    intro st evs err h
    rcases runEpochE_cases env e st with ⟨st', hok⟩ |
      ⟨err', pre, post, herr, hblock, hne⟩
    · simp only [runEpochsE, hok] at h
      rw [Prod.mk.injEq] at h
      obtain ⟨h1, h2⟩ := h
      have hr : runEpochsE env es st' =
          ((runEpochsE env es st').1, Except.error err) := by
        rw [← h2]
      obtain ⟨k, hk, pre, post, hevs, hblk, hne⟩ :=
        ih st' (runEpochsE env es st').1 err hr
      refine ⟨k + 1, by simpa using hk, pre, post, ?_, ?_, hne⟩
      · rw [← h1, hevs]
        simp [List.append_assoc]
      · simpa using hblk
    · simp only [runEpochsE, herr] at h
      rw [Prod.mk.injEq] at h
      obtain ⟨h1, h2⟩ := h
      refine ⟨0, by simp, pre, post, ?_, ?_, hne⟩
      · rw [← h1]
        simp
      · simpa using hblock

/-- C9: no error is caught anywhere inside `train_model`: whatever
collaborator fails — a batch of either phase, the metric computation, the
checkpoint write or the history write — the error propagates to the caller
and aborts the whole run with no retry of any batch or epoch, and the
emissions of the epochs completed before the failure remain exactly their
full per-epoch blocks, unmodified (no rollback): the emitted trace is the
concatenation of the full blocks of the `k` completed epochs followed by a
proper prefix of the failing epoch's block. -/
theorem C9_errors_propagate_no_rollback (env : TrainEnvE P O V E) (p : P)
    (o : O) (s n : ℕ) (evs : List Event) (err : E)
    (h : train_modelE env p o s n = (evs, Except.error err)) :
    ∃ k, k < n - s ∧ ∃ pre post : List Event,
      evs = (List.range' s k).flatMap epochBlock ++ pre ∧
      epochBlock (s + k) = pre ++ post ∧ post ≠ [] := by
  have hrun : runEpochsE env (List.range' s (n - s)) (initLoopState p o) =
      (evs, Except.error err) := by
    rcases hsplit : runEpochsE env (List.range' s (n - s))
      (initLoopState p o) with ⟨evs', r⟩
    cases r with
    | error e' =>
      simp only [train_modelE, hsplit] at h
      rw [Prod.mk.injEq] at h
      obtain ⟨h1, h2⟩ := h
      injection h2 with h2'
      rw [h1, h2']
    | ok stf =>
      simp [train_modelE, hsplit] at h
  obtain ⟨k, hk, pre, post, hevs, hblk, hne⟩ :=
    runEpochsE_error_shape env (List.range' s (n - s)) (initLoopState p o)
      evs err hrun
  have hklt : k < n - s := by simpa using hk
  refine ⟨k, hklt, pre, post, ?_, ?_, hne⟩
  · rw [hevs, take_range' s (n - s) k (le_of_lt hklt)]
  · have hget : (List.range' s (n - s)).get ⟨k, hk⟩ = s + k := by
      simp [List.getElem_range'_1 k hk]
    rw [← hget]
    exact hblk

/-- A concrete fallible environment whose checkpoint write fails at epoch 2
while every other collaborator always succeeds. -/
def wEnvE : TrainEnvE ℕ Unit Unit Unit :=
  { forward := fun _ _ _ => Except.ok [1, 0]
    criterion := fun _ _ => Except.ok 0
    step := fun q u _ => Except.ok (q, u)
    batches := fun _ => [[wSample]]
    datasetLen := fun _ => 5
    metricsFn := fun _ _ => Except.ok
      { accuracy := 0, f1 := 0, precision := 0, recallScore := 0 }
    saveWeights := fun _ e => if e = 2 then Except.error () else Except.ok ()
    writeHistory := fun _ => Except.ok () }

/-- C9 witness: in `wEnvE`, a run over epochs 1, 2, 3 fails at epoch 2's
checkpoint write; the error propagates out of `train_modelE` and the trace
holds epoch 1's full block followed by the two statistics events of the
failing epoch 2. -/
theorem C9_errors_propagate_no_rollback_witness :
    (train_modelE wEnvE 0 () 1 4 =
      (epochBlock 1 ++ [Event.statsTrain 2, Event.statsVal 2],
        Except.error ())) ∧
    (∃ k, k < 4 - 1 ∧ ∃ pre post : List Event,
      epochBlock 1 ++ [Event.statsTrain 2, Event.statsVal 2] =
        (List.range' 1 k).flatMap epochBlock ++ pre ∧
      epochBlock (1 + k) = pre ++ post ∧ post ≠ []) :=
  ⟨rfl, C9_errors_propagate_no_rollback wEnvE 0 () 1 4
    (epochBlock 1 ++ [Event.statsTrain 2, Event.statsVal 2]) () rfl⟩

theorem runEpoch_valAccHistory (env : TrainEnv P O V) (e : ℕ)
    (st : LoopState P O) :
    (runEpoch env e st).valAccHistory =
      st.valAccHistory ++ [valAccNext env st] := by
  simp [runEpoch, valAccNext]

theorem runEpoch_bestAcc (env : TrainEnv P O V) (e : ℕ)
    (st : LoopState P O) :
    (runEpoch env e st).bestAcc =
      if st.bestAcc < valAccNext env st then valAccNext env st
      else st.bestAcc := by
  by_cases h : st.bestAcc < valAccNext env st <;>
    simp only [runEpoch, valAccNext] at h ⊢ <;>
    simp [h]

theorem runEpoch_bestModelWts (env : TrainEnv P O V) (e : ℕ)
    (st : LoopState P O) :
    (runEpoch env e st).bestModelWts =
      if st.bestAcc < valAccNext env st then
        (runPhase env Phase.train st.params st.optim).params
      else st.bestModelWts := by
  have hv := (runPhase_val_frame env
    (runPhase env Phase.train st.params st.optim).params
    (runPhase env Phase.train st.params st.optim).optim).1
  by_cases h : st.bestAcc < valAccNext env st <;>
    simp only [runEpoch, valAccNext] at h ⊢ <;>
    simp [h, hv]

theorem stateUpTo_zero (env : TrainEnv P O V) (p : P) (o : O) (s : ℕ) :
    stateUpTo env p o s 0 = initLoopState p o := rfl

theorem stateUpTo_succ (env : TrainEnv P O V) (p : P) (o : O) (s k : ℕ) :
    stateUpTo env p o s (k + 1) =
      runEpoch env (s + k) (stateUpTo env p o s k) := by
  unfold stateUpTo
  rw [show List.range' s (k + 1) = List.range' s k ++ [s + k] from by
    have h := @List.range'_concat 1 s k
    simpa using h]
  rw [runEpochs_append]
  rfl

theorem snapshotAt_add (env : TrainEnv P O V) (p : P) (o : O) (s k : ℕ) :
    snapshotAt env p o s (s + k) =
      (runPhase env Phase.train (stateUpTo env p o s k).params
        (stateUpTo env p o s k).optim).params := by
  unfold snapshotAt
  rw [Nat.add_sub_cancel_left]

theorem valAccNext_nonneg (env : TrainEnv P O V) (st : LoopState P O) :
    0 ≤ valAccNext env st :=
  div_nonneg (Nat.cast_nonneg _) (Nat.cast_nonneg _)

theorem best_invariant (env : TrainEnv P O V) (p : P) (o : O) (s : ℕ) :
    ∀ k : ℕ,
      (stateUpTo env p o s k).valAccHistory.length = k ∧
      0 ≤ (stateUpTo env p o s k).bestAcc ∧
      (∀ a ∈ (stateUpTo env p o s k).valAccHistory,
        a ≤ (stateUpTo env p o s k).bestAcc) ∧
      (((stateUpTo env p o s k).bestAcc = 0 ∧
        (stateUpTo env p o s k).bestModelWts = p) ∨
       (∃ i, i < k ∧
         (stateUpTo env p o s k).valAccHistory[i]? =
           some (stateUpTo env p o s k).bestAcc ∧
         0 < (stateUpTo env p o s k).bestAcc ∧
         (∀ j, j < i → ∀ b,
           (stateUpTo env p o s k).valAccHistory[j]? = some b →
             b < (stateUpTo env p o s k).bestAcc) ∧
         (stateUpTo env p o s k).bestModelWts =
           snapshotAt env p o s (s + i))) := by
  intro k
  induction k with
  | zero =>
    refine ⟨rfl, le_refl 0, ?_, Or.inl ⟨rfl, rfl⟩⟩
    intro a ha
    simp [stateUpTo_zero, initLoopState] at ha
  | succ k ih =>
    obtain ⟨hlen, hnn, hub, hdisj⟩ := ih
    have hsucc := stateUpTo_succ env p o s k
    have hacc : (stateUpTo env p o s (k + 1)).valAccHistory =
        (stateUpTo env p o s k).valAccHistory ++
          [valAccNext env (stateUpTo env p o s k)] := by
      rw [hsucc]; exact runEpoch_valAccHistory env (s + k) _
    have hbA : (stateUpTo env p o s (k + 1)).bestAcc =
        if (stateUpTo env p o s k).bestAcc <
            valAccNext env (stateUpTo env p o s k) then
          valAccNext env (stateUpTo env p o s k)
        else (stateUpTo env p o s k).bestAcc := by
      rw [hsucc]; exact runEpoch_bestAcc env (s + k) _
    have hbW : (stateUpTo env p o s (k + 1)).bestModelWts =
        if (stateUpTo env p o s k).bestAcc <
            valAccNext env (stateUpTo env p o s k) then
          (runPhase env Phase.train (stateUpTo env p o s k).params
            (stateUpTo env p o s k).optim).params
        else (stateUpTo env p o s k).bestModelWts := by
      rw [hsucc]; exact runEpoch_bestModelWts env (s + k) _
    by_cases hcase : (stateUpTo env p o s k).bestAcc <
        valAccNext env (stateUpTo env p o s k)
    · have hbA' : (stateUpTo env p o s (k + 1)).bestAcc =
          valAccNext env (stateUpTo env p o s k) := by
        rw [hbA, if_pos hcase]
      have hbW' : (stateUpTo env p o s (k + 1)).bestModelWts =
          (runPhase env Phase.train (stateUpTo env p o s k).params
            (stateUpTo env p o s k).optim).params := by
        rw [hbW, if_pos hcase]
      refine ⟨by rw [hacc]; simp [hlen], ?_, ?_,
        Or.inr ⟨k, by omega, ?_, ?_, ?_, ?_⟩⟩
      · rw [hbA']; exact valAccNext_nonneg env _
      · intro b hb
        rw [hacc] at hb
        rw [hbA']
        rcases List.mem_append.mp hb with h1 | h2
        · exact le_of_lt (lt_of_le_of_lt (hub b h1) hcase)
        · simp at h2
          rw [h2]
      · rw [hacc, hbA']
        have hcl := List.getElem?_concat_length
          (stateUpTo env p o s k).valAccHistory
          (valAccNext env (stateUpTo env p o s k))
        rw [hlen] at hcl
        exact hcl
      · rw [hbA']
        exact lt_of_le_of_lt hnn hcase
      · intro j hj b hbj
        rw [hacc] at hbj
        rw [List.getElem?_append_left (by omega)] at hbj
        have hmem : b ∈ (stateUpTo env p o s k).valAccHistory :=
          List.getElem?_mem hbj
        rw [hbA']
        exact lt_of_le_of_lt (hub b hmem) hcase
      · rw [hbW', snapshotAt_add]
    · have hbA' : (stateUpTo env p o s (k + 1)).bestAcc =
          (stateUpTo env p o s k).bestAcc := by
        rw [hbA, if_neg hcase]
      have hbW' : (stateUpTo env p o s (k + 1)).bestModelWts =
          (stateUpTo env p o s k).bestModelWts := by
        rw [hbW, if_neg hcase]
      refine ⟨by rw [hacc]; simp [hlen], by rw [hbA']; exact hnn, ?_, ?_⟩
      · intro b hb
        rw [hacc] at hb
        rw [hbA']
        rcases List.mem_append.mp hb with h1 | h2
        · exact hub b h1
        · simp at h2
          rw [h2]
          exact not_lt.mp hcase
      · rcases hdisj with ⟨hz, hw⟩ | ⟨i, hik, hgi, hpos, hfirst, hwts⟩
        · exact Or.inl ⟨by rw [hbA']; exact hz, by rw [hbW']; exact hw⟩
        · refine Or.inr ⟨i, by omega, ?_, by rw [hbA']; exact hpos, ?_,
            by rw [hbW']; exact hwts⟩
          · rw [hacc, hbA', List.getElem?_append_left (by omega)]
            exact hgi
          · intro j hj b hbj
            rw [hacc] at hbj
            rw [List.getElem?_append_left (by omega)] at hbj
            rw [hbA']
            exact hfirst j hj b hbj

theorem valAccNext_eq (env : TrainEnv P O V) (st : LoopState P O) :
    valAccNext env st =
      ((runPhase env Phase.val
        (runPhase env Phase.train st.params st.optim).params
        (runPhase env Phase.train st.params st.optim).optim).runningCorrects
        : ℚ) / (env.datasetLen Phase.val : ℚ) := rfl

/-- A concrete environment where each train batch increments the parameter
counter but every validation prediction is wrong, so the validation epoch
accuracy is 0 in every epoch. -/
def cexEnv : TrainEnv ℕ Unit Unit :=
  { forward := fun _ phase _ =>
      if phase = Phase.train then [1, 0] else [0, 1]
    criterion := fun _ _ => 0
    step := fun q u _ => (q + 1, u)
    batches := fun _ => [[wSample]]
    datasetLen := fun _ => 1
    metricsFn := fun _ _ =>
      { accuracy := 0, f1 := 0, precision := 0, recallScore := 0 } }

/-- C1 counterexample: a run of `cexEnv` over the single epoch 1, so the run
has at least one epoch and epoch 1 attains the best (the only) validation
epoch accuracy, 0.  The snapshot taken at epoch 1 is the parameter value 1
reached after its train phase, but `0 > best_acc = 0.0` fails, the promotion
never fires, and the returned model carries the initial parameters 0 — not
the epoch-1 snapshot — refuting the claim at this input. -/
theorem cex_valAccNext : valAccNext cexEnv (initLoopState 0 ()) = 0 := by
  rw [valAccNext_eq]
  rw [show (runPhase cexEnv Phase.val
      (runPhase cexEnv Phase.train
        (initLoopState (P := ℕ) (O := Unit) 0 ()).params
        (initLoopState (P := ℕ) (O := Unit) 0 ()).optim).params
      (runPhase cexEnv Phase.train
        (initLoopState (P := ℕ) (O := Unit) 0 ()).params
        (initLoopState (P := ℕ) (O := Unit) 0 ()).optim).optim
      ).runningCorrects = 0 from by decide]
  simp

theorem C1_counterexample :
    (train_model cexEnv 0 () 1 2).valAccHistory = [0] ∧
    snapshotAt cexEnv 0 () 1 1 = 1 ∧
    (train_model cexEnv 0 () 1 2).model ≠ snapshotAt cexEnv 0 () 1 1 := by
  have hsnap : snapshotAt cexEnv 0 () 1 1 = 1 := by decide
  have hvh : (train_model cexEnv 0 () 1 2).valAccHistory =
      (runEpoch cexEnv 1 (initLoopState 0 ())).valAccHistory := rfl
  have hm : (train_model cexEnv 0 () 1 2).model =
      (runEpoch cexEnv 1 (initLoopState 0 ())).bestModelWts := rfl
  refine ⟨?_, hsnap, ?_⟩
  · rw [hvh, runEpoch_valAccHistory, cex_valAccNext]
    simp [initLoopState]
  · rw [hm, runEpoch_bestModelWts, cex_valAccNext, hsnap]
    simp [initLoopState]

/-- C1 (amended): after the final epoch `train_model` loads `best_model_wts`
back onto the live model and returns it together with the per-epoch history
sequences and the list of completed epoch indices; for every run in which
some epoch attains a strictly positive validation epoch accuracy, the
returned parameters equal the snapshot taken at the first epoch attaining
the maximum validation epoch accuracy.  (The positivity proviso is what the
counterexample forces: when every epoch's validation accuracy is 0, the
initial snapshot is kept instead.) -/
theorem C1_returns_first_best_snapshot (env : TrainEnv P O V) (p : P)
    (o : O) (s n : ℕ)
    (hpos : ∃ a ∈ (train_model env p o s n).valAccHistory, 0 < a) :
    (train_model env p o s n).plotEpoch = List.range' s (n - s) ∧
    ∃ i, i < n - s ∧ ∃ b : ℚ,
      (train_model env p o s n).valAccHistory[i]? = some b ∧
      (∀ c ∈ (train_model env p o s n).valAccHistory, c ≤ b) ∧
      (∀ j, j < i → ∀ c,
        (train_model env p o s n).valAccHistory[j]? = some c → c < b) ∧
      (train_model env p o s n).model = snapshotAt env p o s (s + i) := by
  obtain ⟨hlen, hnn, hub, hdisj⟩ := best_invariant env p o s (n - s)
  have hplot : (train_model env p o s n).plotEpoch =
      List.range' s (n - s) := by
    have h := runEpochs_plotEpoch env (List.range' s (n - s))
      (initLoopState (P := P) (O := O) p o)
    simpa [train_model, initLoopState] using h
  obtain ⟨a, ha, hapos⟩ := hpos
  rcases hdisj with ⟨hz, _⟩ | ⟨i, hik, hgi, hbpos, hfirst, hwts⟩
  · exfalso
    have hle : a ≤ (stateUpTo env p o s (n - s)).bestAcc := hub a ha
    rw [hz] at hle
    exact absurd hapos (not_lt.mpr hle)
  · exact ⟨hplot, i, hik, (stateUpTo env p o s (n - s)).bestAcc, hgi, hub,
      hfirst, hwts⟩

/-- C1 witness: in `w10Env` the single epoch 1 attains validation accuracy
1/5 > 0, and the theorem locates the returned weights at the epoch-1
snapshot. -/
theorem w10_valAccNext : valAccNext w10Env (initLoopState 0 ()) =
    ((1 : ℕ) : ℚ) / ((5 : ℕ) : ℚ) := by
  rw [valAccNext_eq]
  rw [show (runPhase w10Env Phase.val
      (runPhase w10Env Phase.train
        (initLoopState (P := ℕ) (O := Unit) 0 ()).params
        (initLoopState (P := ℕ) (O := Unit) 0 ()).optim).params
      (runPhase w10Env Phase.train
        (initLoopState (P := ℕ) (O := Unit) 0 ()).params
        (initLoopState (P := ℕ) (O := Unit) 0 ()).optim).optim
      ).runningCorrects = 1 from by decide]
  rfl

theorem w10_hpos : ∃ a ∈ (train_model w10Env 0 () 1 2).valAccHistory,
    0 < a := by
  have hvh : (train_model w10Env 0 () 1 2).valAccHistory =
      (runEpoch w10Env 1 (initLoopState 0 ())).valAccHistory := rfl
  refine ⟨valAccNext w10Env (initLoopState 0 ()), ?_, ?_⟩
  · rw [hvh, runEpoch_valAccHistory]
    simp [initLoopState]
  · rw [w10_valAccNext]
    norm_num

theorem C1_returns_first_best_snapshot_witness :
    (∃ a ∈ (train_model w10Env 0 () 1 2).valAccHistory, 0 < a) ∧
    ((train_model w10Env 0 () 1 2).plotEpoch = List.range' 1 (2 - 1) ∧
     ∃ i, i < 2 - 1 ∧ ∃ b : ℚ,
       (train_model w10Env 0 () 1 2).valAccHistory[i]? = some b ∧
       (∀ c ∈ (train_model w10Env 0 () 1 2).valAccHistory, c ≤ b) ∧
       (∀ j, j < i → ∀ c,
         (train_model w10Env 0 () 1 2).valAccHistory[j]? = some c → c < b) ∧
       (train_model w10Env 0 () 1 2).model =
         snapshotAt w10Env 0 () 1 (1 + i)) :=
  ⟨w10_hpos, C1_returns_first_best_snapshot w10Env 0 () 1 2 w10_hpos⟩

theorem stateUpTo_valAccHistory_mono (env : TrainEnv P O V) (p : P) (o : O)
    (s k m : ℕ) (hkm : k ≤ m) :
    ∃ ext : List ℚ, (stateUpTo env p o s m).valAccHistory =
      (stateUpTo env p o s k).valAccHistory ++ ext := by
  have hsplit : List.range' s m =
      List.range' s k ++ List.range' (s + k) (m - k) := by
    have h2 := List.range'_append s k (m - k) 1
    simp only [Nat.one_mul, Nat.mul_one] at h2
    rw [h2]
    congr 1
    omega
  unfold stateUpTo
  rw [hsplit, runEpochs_append]
  obtain ⟨l, hl, _⟩ := runEpochs_valAccHistory_ext env
    (List.range' (s + k) (m - k))
    (runEpochs env (List.range' s k) (initLoopState p o))
  exact ⟨l, hl⟩

/-- C2 counterexample: in the single-epoch run of `cexEnv` starting at epoch
1, epoch 1's validation epoch accuracy 0 strictly exceeds every previous
epoch's validation accuracy (vacuously: there are none), yet the
best-accuracy state is not updated — `best_acc` stays 0 and
`best_model_wts` stays the initial parameters 0 instead of the epoch-1
snapshot 1 — because the comparison is against the initial
`best_acc = 0.0` and `0 > 0.0` is false.  This refutes the claimed "if and
only if". -/
theorem C2_counterexample :
    (stateUpTo cexEnv 0 () 1 1).valAccHistory = [0] ∧
    ¬ updatedAt cexEnv 0 () 1 0 ∧
    (stateUpTo cexEnv 0 () 1 1).bestModelWts = 0 ∧
    (stateUpTo cexEnv 0 () 1 1).bestAcc = 0 ∧
    snapshotAt cexEnv 0 () 1 1 = 1 := by
  have hsucc : stateUpTo cexEnv 0 () 1 1 =
      runEpoch cexEnv 1 (initLoopState 0 ()) := by
    have h := stateUpTo_succ cexEnv 0 () 1 0
    simpa using h
  have hA : (stateUpTo cexEnv 0 () 1 1).bestAcc = 0 := by
    rw [hsucc, runEpoch_bestAcc, cex_valAccNext]
    simp [initLoopState]
  refine ⟨?_, ?_, ?_, hA, by decide⟩
  · rw [hsucc, runEpoch_valAccHistory, cex_valAccNext]
    simp [initLoopState]
  · intro hup
    unfold updatedAt at hup
    apply hup
    rw [hA]
    rfl
  · rw [hsucc, runEpoch_bestModelWts, cex_valAccNext]
    simp [initLoopState]

/-- C2 (amended): for every epoch of every run of `train_model`, the
best-accuracy state `(best_acc, best_model_wts)` is updated by that epoch if
and only if its validation epoch accuracy is strictly positive and strictly
exceeds all previous epochs' validation epoch accuracies; in particular an
epoch that ties the current best never updates the snapshot.  (Strict
positivity is what the counterexample forces: because of the initial
`best_acc = 0.0` and the strict comparison, a first epoch with accuracy 0
exceeds all — zero — previous epochs yet does not update.) -/
theorem C2_update_iff_new_positive_max (env : TrainEnv P O V) (p : P)
    (o : O) (s n k : ℕ) (hk : k < n - s) :
    updatedAt env p o s k ↔
      (∃ b : ℚ, (train_model env p o s n).valAccHistory[k]? = some b ∧
        0 < b ∧
        ∀ j, j < k → ∀ c,
          (train_model env p o s n).valAccHistory[j]? = some c → c < b) := by
  obtain ⟨hlen, hnn, hub, hdisj⟩ := best_invariant env p o s k
  have hacck : (stateUpTo env p o s (k + 1)).valAccHistory =
      (stateUpTo env p o s k).valAccHistory ++
        [valAccNext env (stateUpTo env p o s k)] := by
    rw [stateUpTo_succ]
    exact runEpoch_valAccHistory env (s + k) _
  have hfull : (train_model env p o s n).valAccHistory =
      (stateUpTo env p o s (n - s)).valAccHistory := rfl
  obtain ⟨ext, hext⟩ := stateUpTo_valAccHistory_mono env p o s (k + 1)
    (n - s) (by omega)
  have hk1len : (stateUpTo env p o s (k + 1)).valAccHistory.length = k + 1 := by
    rw [hacck]
    simp [hlen]
  have hfullk : (train_model env p o s n).valAccHistory[k]? =
      some (valAccNext env (stateUpTo env p o s k)) := by
    rw [hfull, hext, List.getElem?_append_left (by omega), hacck]
    have hcl := List.getElem?_concat_length
      (stateUpTo env p o s k).valAccHistory
      (valAccNext env (stateUpTo env p o s k))
    rw [hlen] at hcl
    exact hcl
  have hfullj : ∀ j, j < k → (train_model env p o s n).valAccHistory[j]? =
      (stateUpTo env p o s k).valAccHistory[j]? := by
    intro j hj
    rw [hfull, hext, List.getElem?_append_left (by omega), hacck,
      List.getElem?_append_left (by omega)]
  have hupd : updatedAt env p o s k ↔
      (stateUpTo env p o s k).bestAcc <
        valAccNext env (stateUpTo env p o s k) := by
    unfold updatedAt
    rw [stateUpTo_succ, runEpoch_bestAcc]
    by_cases hc : (stateUpTo env p o s k).bestAcc <
        valAccNext env (stateUpTo env p o s k)
    · rw [if_pos hc]
      exact ⟨fun _ => hc, fun _ => ne_of_gt hc⟩
    · rw [if_neg hc]
      exact ⟨fun hne => absurd rfl hne, fun hlt => absurd hlt hc⟩
  rw [hupd]
  constructor
  · intro hc
    refine ⟨valAccNext env (stateUpTo env p o s k), hfullk,
      lt_of_le_of_lt hnn hc, ?_⟩
    intro j hj c hcj
    rw [hfullj j hj] at hcj
    have hmem : c ∈ (stateUpTo env p o s k).valAccHistory :=
      List.getElem?_mem hcj
    exact lt_of_le_of_lt (hub c hmem) hc
  · rintro ⟨b, hbk, hbpos, hblt⟩
    rw [hfullk] at hbk
    injection hbk with hba
    rw [hba]
    rcases hdisj with ⟨hz, _⟩ | ⟨i, hik, hgi, hbpos', hfirst, hwts⟩
    · rw [hz]
      exact hbpos
    · have hib : (train_model env p o s n).valAccHistory[i]? =
          some (stateUpTo env p o s k).bestAcc := by
        rw [hfullj i hik]
        exact hgi
      exact hblt i hik (stateUpTo env p o s k).bestAcc hib

/-- C2 witness: in `w10Env` the first epoch of a one-epoch run attains
validation accuracy 1/5 > 0 with no previous epochs, and the equivalence is
exhibited at that concrete input. -/
theorem C2_update_iff_new_positive_max_witness :
    (0 < 2 - 1) ∧
    (updatedAt w10Env 0 () 1 0 ↔
      (∃ b : ℚ, (train_model w10Env 0 () 1 2).valAccHistory[0]? = some b ∧
        0 < b ∧
        ∀ j, j < 0 → ∀ c,
          (train_model w10Env 0 () 1 2).valAccHistory[j]? = some c → c < b)) :=
  ⟨by decide, C2_update_iff_new_positive_max w10Env 0 () 1 2 0 (by decide)⟩
